import Mathlib

/-!
Shallow embedding of the option-editing engine of the mmeson repository
(src/mmeson/options.py, src/mmeson/tui.py, src/mmeson/meson_interface.py),
together with theorems settling the specification claims about it.

Conventions of the embedding:
* Python lists become Lean `List`s; Python list indexing (including its
  negative-index wrap-around and its `IndexError`) is modelled by `pyIndex`.
* Python's dynamically typed option values become the tagged sum `MesonValue`.
* Operations that can raise return `Option`; `none` models the raised exception.
* urwid widgets are modelled by their state fields; emitting the urwid
  `changed` signal is modelled by a `Bool` result component (`true` = the
  signal was emitted exactly once during the call).
-/

namespace Mmeson

/-- Embeds `MesonType` (options.py, lines 13-23). -/
inductive MesonType where
  | STRING
  | BOOLEAN
  | COMBO
  | INTEGER
  | ARRAY
deriving DecidableEq

/-- Embeds `MesonSection` (options.py, lines 26-38). -/
inductive MesonSection where
  | CORE
  | BACKEND
  | BASE
  | COMPILER
  | DIRECTORY
  | USER
  | TEST
deriving DecidableEq

/-- Embeds `MesonMachine` (options.py, lines 41-49). -/
inductive MesonMachine where
  | ANY
  | HOST
  | BUILD
deriving DecidableEq

/-- A dynamically-typed option value: Python `str` / `bool` / `int` /
`list[str]` as stored in `Option.value` (options.py). Combo options store
their value as a `str`. -/
inductive MesonValue where
  | str (s : String)
  | bool (b : Bool)
  | int (n : Int)
  | array (xs : List String)
deriving DecidableEq

/-- Embeds the `Option` class of options.py (lines 53-69); named `MesonOption`
here because `Option` is taken by Lean's core library. The field `msection`
embeds the Python attribute `section` (a Lean keyword). -/
structure MesonOption where
  name : String
  value : MesonValue
  type : MesonType
  description : String
  choices : List String
  msection : MesonSection
  machine : MesonMachine
  modified : Bool
deriving DecidableEq

/-- Embeds `Option.__init__` (options.py, lines 59-69): stores all attributes
and initialises `modified` to `False`. -/
def MesonOption.init (name : String) (value : MesonValue) (value_type : MesonType)
    (description : String) (choices : List String) (msection : MesonSection)
    (machine : MesonMachine) : MesonOption :=
  { name := name, value := value, type := value_type, description := description,
    choices := choices, msection := msection, machine := machine, modified := false }

/-- The single-quote character `'` used by the Python source in string
literals; written via its code point to keep the file free of quote-escape
noise. -/
def quoteChar : Char := Char.ofNat 39

/-- The backslash character. -/
def backslashChar : Char := Char.ofNat 92

/-- `String.singleton quoteChar`. -/
def quoteStr : String := String.singleton quoteChar

/-- Embeds the `ARRAY` branch of `Option.value_as_string` (options.py,
lines 87-92): start from `"["`, append `'entry',` for every entry, then drop
the final character (Python `ret[:-1]`) and append `"]"`.  Note that for an
empty list the dropped character is the opening bracket itself. -/
def arrayValueString (xs : List String) : String :=
  let ret := xs.foldl (fun acc entry => acc ++ quoteStr ++ entry ++ quoteStr ++ ",") "["
  ret.dropRight 1 ++ "]"

/-- Embeds `Option.value_as_string` (options.py, lines 72-92). Python would
raise at runtime if the stored value's shape does not match the declared
type (e.g. iterating a non-list for `ARRAY`); those mismatching shapes are
modelled as `none`. `repr(bool).lower()` yields `"true"` / `"false"`;
`str(int)` agrees with Lean's `toString` on `Int`. -/
def MesonOption.value_as_string (o : MesonOption) : Option String :=
  match o.type, o.value with
  | .STRING, .str s => some ("\"" ++ s ++ "\"")
  | .BOOLEAN, .bool b => some (if b then "true" else "false")
  | .COMBO, .str s => some s
  | .INTEGER, .int n => some (toString n)
  | .ARRAY, .array xs => some (arrayValueString xs)
  | _, _ => none

/-- Python list indexing semantics for a list of length `n`: index `i` with
`0 ≤ i < n` selects position `i`; a negative `i` with `-n ≤ i` selects
position `n + i`; every other index raises `IndexError` (modelled `none`). -/
def pyIndex (n : Nat) (i : Int) : Option Nat :=
  if 0 ≤ i ∧ i < (n : Int) then some i.toNat
  else if -(n : Int) ≤ i ∧ i < 0 then some ((n : Int) + i).toNat
  else none

/-- Helper for `set_modified`: functional update at position `i`, setting
`modified := true` and `value := v` (out-of-range `i` leaves the list
unchanged; callers only use it with in-range `i` from `pyIndex`). -/
def setOption : List MesonOption → Nat → MesonValue → List MesonOption
  | [], _, _ => []
  | o :: rest, 0, v => { o with modified := true, value := v } :: rest
  | o :: rest, n + 1, v => o :: setOption rest n v

/-- Embeds `OptionsManager.set_modified` (options.py, lines 156-165):
`self.options[index].modified = True; self.options[index].value = value`.
No check of any kind is performed on `value`; the only failure mode is an
out-of-range index (Python `IndexError`). -/
def set_modified (opts : List MesonOption) (index : Int) (value : MesonValue) :
    Option (List MesonOption) :=
  (pyIndex opts.length index).map (fun i => setOption opts i value)

/-- Embeds `OptionsManager.get_option` (options.py, lines 139-147):
`return self.options[index]`, with Python list-indexing semantics. -/
def get_option (opts : List MesonOption) (index : Int) : Option MesonOption :=
  (pyIndex opts.length index).bind (fun i => opts[i]?)

/-- Embeds `OptionsManager.get_modified_options` (options.py, lines 149-154):
`list(filter(lambda option: option.modified, self.options))`. -/
def get_modified_options (opts : List MesonOption) : List MesonOption :=
  opts.filter (fun o => o.modified)

/-- A session's sequence of commits, each arriving at the store as a
`set_modified(index, value)` call (tui.py, line 423). `none` models an
`IndexError` escaping from any call of the sequence. -/
def runCommits (opts : List MesonOption) : List (Int × MesonValue) → Option (List MesonOption)
  | [] => some opts
  | (i, v) :: rest =>
    match set_modified opts i v with
    | some opts2 => runCommits opts2 rest
    | none => none

/-- Embeds the `section_map` dictionary inside `OptionsManager.set_options`
(options.py, lines 117-125). -/
def section_map : MesonSection → Nat
  | .USER => 1
  | .BASE => 2
  | .COMPILER => 3
  | .CORE => 4
  | .DIRECTORY => 5
  | .TEST => 6
  | .BACKEND => 7

/-- Embeds the `sorter` key function inside `OptionsManager.set_options`
(options.py, lines 112-129): split the name on `:`; a name without a colon
has subproject `""` and is its own bare name; otherwise the subproject is
the part before the first colon and the bare name the part between the
first and second colon (`splitted[1]`). `String.splitOn ":"` never returns
`[]`, so the last match arm is unreachable. -/
def sorter (o : MesonOption) : String × Nat × String :=
  match o.name.splitOn ":" with
  | [single] => ("", section_map o.msection, single)
  | first :: second :: _ => (first, section_map o.msection, second)
  | [] => ("", section_map o.msection, o.name)

/-- The sort key as a lexicographically ordered triple, exactly Python's
tuple comparison of `sorter`'s result (strings by code point, then the
section priority, then the bare name). -/
def sortKeyLex (o : MesonOption) : Lex (String × Lex (Nat × String)) :=
  toLex ((sorter o).1, toLex ((sorter o).2.1, (sorter o).2.2))

/-- The comparison Python's `sorted(options, key=sorter)` sorts by. -/
def optionLe (a b : MesonOption) : Bool :=
  decide (sortKeyLex a ≤ sortKeyLex b)

/-- Embeds `OptionsManager.set_options` (options.py, lines 105-130):
`self.options = sorted(options, key=sorter)`; Python's `sorted` is a stable
merge sort, modelled by `List.mergeSort` on the key comparison. -/
def set_options (options : List MesonOption) : List MesonOption :=
  options.mergeSort optionLe

/-- Result of a widget keypress: the new widget state, whether the urwid
`changed` signal was emitted during the call (each code path emits at most
once), and the key returned to urwid (`some key` = the key was not consumed). -/
structure KeypressResult (σ : Type) where
  state : σ
  emitted : Bool
  unhandled : Option String
deriving DecidableEq

/-- State of `StringEdit` (tui.py, lines 67-116): the `activated` flag and
the wrapped `urwid.Edit` widget's text buffer and edit position. -/
structure StringEditState where
  activated : Bool
  text : String
  edit_pos : Nat
deriving DecidableEq

/-- Embeds `StringEdit.__init__` (tui.py, lines 79-82). -/
def StringEdit.init (value : String) : StringEditState :=
  { activated := false, text := value, edit_pos := 0 }

/-- Embeds `StringEdit.get_value` (tui.py, lines 84-89): the buffer text. -/
def StringEdit.get_value (st : StringEditState) : String :=
  st.text

/-- Embeds `StringEdit.keypress` (tui.py, lines 92-116). `enter` toggles
`activated`, moves the edit position, and — only on the transition to
deactivated — emits `changed` unconditionally, whether or not the text ever
changed. Other keys are forwarded to the wrapped `urwid.Edit` when
activated; that external widget's buffer update is abstracted by `ed`. -/
def StringEdit.keypress (ed : String → String → String) (st : StringEditState)
    (key : String) : KeypressResult StringEditState :=
  if key = "enter" then
    let act := !st.activated
    let pos := if act then st.text.length else 0
    { state := { st with activated := act, edit_pos := pos },
      emitted := !act,
      unhandled := none }
  else if st.activated then
    { state := { st with text := ed st.text key }, emitted := false, unhandled := none }
  else
    { state := st, emitted := false, unhandled := some key }

/-- State of `BooleanEdit` (tui.py, lines 119-173); the wrapped
`SelectableIcon` text and palette attribute are display-only and omitted. -/
structure BooleanEditState where
  state : Bool
deriving DecidableEq

/-- Embeds `BooleanEdit.set_state` (tui.py, lines 135-147): returns early —
emitting nothing — when the new state equals the current one; otherwise
stores the new state and emits `changed` once. The `Bool` result is the
emission flag. -/
def BooleanEdit.set_state (st : BooleanEditState) (state : Bool) :
    BooleanEditState × Bool :=
  if st.state = state then (st, false)
  else ({ state := state }, true)

/-- Embeds `BooleanEdit.toggle_state` (tui.py, lines 156-160). -/
def BooleanEdit.toggle_state (st : BooleanEditState) : BooleanEditState × Bool :=
  BooleanEdit.set_state st (!st.state)

/-- State of `ComboEdit` (tui.py, lines 176-256). -/
structure ComboEditState where
  choice_index : Nat
  choices : List String
deriving DecidableEq

/-- Embeds `ComboEdit.__init__` (tui.py, lines 189-193):
`choice_index = choices.index(init_choice)`; Python raises `ValueError`
when `init_choice` is absent, modelled as `none`. -/
def ComboEdit.init (init_choice : String) (choices : List String) :
    Option ComboEditState :=
  if init_choice ∈ choices then
    some { choice_index := choices.indexOf init_choice, choices := choices }
  else none

/-- Embeds `ComboEdit.set_choice` (tui.py, lines 211-224): returns early —
emitting nothing — when the new index equals the current one; otherwise
stores it and emits `changed` once. -/
def ComboEdit.set_choice (st : ComboEditState) (choice_index : Nat) :
    ComboEditState × Bool :=
  if st.choice_index = choice_index then (st, false)
  else ({ st with choice_index := choice_index }, true)

/-- Embeds `ComboEdit.get_choice` (tui.py, lines 226-231):
`self.choices[self.choice_index]`; in-range under the class invariant,
modelled with `getD` (the default is unreachable for in-range indices). -/
def ComboEdit.get_choice (st : ComboEditState) : String :=
  st.choices.getD st.choice_index ""

/-- Embeds `ComboEdit.rotate_choice` (tui.py, lines 240-247): wrap to the
first choice after the last, otherwise advance by one. -/
def ComboEdit.rotate_choice (st : ComboEditState) : ComboEditState × Bool :=
  if st.choice_index = st.choices.length - 1 then ComboEdit.set_choice st 0
  else ComboEdit.set_choice st (st.choice_index + 1)

/-- State of `IntegerEdit` (tui.py, lines 259-295): the `activated` flag and
the wrapped `urwid.IntEdit`'s digit buffer. -/
structure IntegerEditState where
  activated : Bool
  buffer : String
deriving DecidableEq

/-- Embeds `IntegerEdit.keypress` (tui.py, lines 283-295): same state
machine as `StringEdit.keypress` minus the edit-position bookkeeping; the
`changed` signal is again emitted unconditionally on deactivation. -/
def IntegerEdit.keypress (ed : String → String → String) (st : IntegerEditState)
    (key : String) : KeypressResult IntegerEditState :=
  if key = "enter" then
    let act := !st.activated
    { state := { st with activated := act }, emitted := !act, unhandled := none }
  else if st.activated then
    { state := { st with buffer := ed st.buffer key }, emitted := false, unhandled := none }
  else
    { state := st, emitted := false, unhandled := some key }

/-- State of an `OptionRow`'s change marker (tui.py, lines 317-363): the
`changed` flag and the displayed label text. -/
structure OptionRowState where
  changed : Bool
  label : String
deriving DecidableEq

/-- Embeds `OptionRow.set_changed` (tui.py, lines 356-363): idempotent;
the first call prefixes the label with `*`. -/
def set_changed (r : OptionRowState) : OptionRowState :=
  if r.changed then r
  else { changed := true, label := "*" ++ r.label }

/-- Embeds `OptionList.entry_modified_callback` (tui.py, lines 416-423):
on a `changed` signal, mark the row changed and write the committed value
into the store via `set_modified`. -/
def entry_modified_callback (row : OptionRowState) (opts : List MesonOption)
    (option_index : Int) (value : MesonValue) :
    OptionRowState × Option (List MesonOption) :=
  (set_changed row, set_modified opts option_index value)

/-- One element of Python's `str(list_of_strings)`: the element's `repr`,
which for printable-ASCII strings containing neither a single quote nor a
backslash is the text wrapped in single quotes. -/
def encodeElem (s : String) : List Char :=
  quoteChar :: (s.data ++ [quoteChar])

/-- The comma-space separated element sequence of Python's
`str(list_of_strings)`. -/
def encodeElems : List String → List Char
  | [] => []
  | [s] => encodeElem s
  | s :: rest => encodeElem s ++ ',' :: ' ' :: encodeElems rest

/-- Embeds the buffer text `str(value)` that `ArrayEdit.__init__` (tui.py,
lines 306-307) hands to `StringEdit`: Python's textual form of a list of
strings, e.g. `['a', 'b']`, restricted to elements whose `repr` is the
single-quoted literal text (the character class of the round-trip claim). -/
def pyStrList (xs : List String) : String :=
  String.mk ('[' :: (encodeElems xs ++ [']']))

/-- Scanner for a single-quoted literal's body: consumes characters up to
the closing single quote, returning the body and the rest; `none` when the
quote never closes. Models CPython's tokenization of the string literals
`ast.literal_eval` parses (no escape handling — the inputs of interest
contain no backslash). -/
def scanQuoted : List Char → Option (List Char × List Char)
  | [] => none
  | c :: rest =>
    if c = quoteChar then some ([], rest)
    else (scanQuoted rest).map (fun p => (c :: p.1, p.2))

/-- Parser for the element sequence of a bracketed list literal, after the
opening bracket: a single-quoted string, then either the closing bracket
(end of input) or a `, ` separator and further elements. Fuel-driven;
`parseStringList` supplies fuel covering the whole input. Models
`ast.literal_eval`'s grammar restricted to `['…', '…', …]` literals. -/
def parseElems : Nat → List Char → Option (List String)
  | 0, _ => none
  | _ + 1, [] => none
  | fuel + 1, c :: rest =>
    if c = quoteChar then
      match scanQuoted rest with
      | none => none
      | some (body, r) =>
        match r with
        | [] => none
        | r1 :: rtail =>
          if r1 = ']' ∧ rtail = [] then some [String.mk body]
          else if r1 = ',' then
            match rtail with
            | ' ' :: r2 => (parseElems fuel r2).map (fun l => String.mk body :: l)
            | _ => none
          else none
    else none

/-- Embeds `ArrayEdit.get_value`'s `literal_eval` (tui.py, lines 309-314)
on the fragment the editor produces: a bracketed, comma-space separated
list of single-quoted strings, or the empty list `[]`; anything else is a
parse error (`none`, modelling the raised `ValueError`). -/
def parseStringList (s : String) : Option (List String) :=
  match s.data with
  | [] => none
  | c :: rest =>
    if c = '[' then
      if rest = [']'] then some []
      else parseElems rest.length rest
    else none

/-- Embeds `ArrayEdit.__init__` (tui.py, lines 306-307): a `StringEdit`
whose initial buffer is the list's textual form. -/
def ArrayEdit.init (value : List String) : StringEditState :=
  StringEdit.init (pyStrList value)

/-- Embeds `ArrayEdit.get_value` (tui.py, lines 309-314):
`literal_eval` of the buffer text. -/
def ArrayEdit.get_value (st : StringEditState) : Option (List String) :=
  parseStringList (StringEdit.get_value st)

/-- Embeds `ExitAction` (meson_interface.py, lines 17-29). -/
inductive ExitAction where
  | NOTHING
  | ONLY_CONFIGURE
  | RECONFIGURE
deriving DecidableEq

/-- Observable outcome of `MesonManager.run_exit_action`: the returned exit
status and how many times each external Meson subprocess was started. -/
structure ExitResult where
  returncode : Int
  configure_runs : Nat
  reconfigure_runs : Nat
deriving DecidableEq

/-- Embeds `MesonManager.run_exit_action` (meson_interface.py, lines
143-182). The external `meson configure` and `meson setup --reconfigure`
subprocesses are abstracted by the exit codes they would report
(`configure_ret`, `reconfigure_ret`); the result records the final status
and how many times each subprocess ran. Control flow follows the source:
`NOTHING` and an empty modified subset return 0 without running anything;
`ONLY_CONFIGURE` returns the configure status; `RECONFIGURE` skips the
reconfigure step when configure failed, else runs it once and propagates
its status. -/
def run_exit_action (exit_action : ExitAction) (opts : List MesonOption)
    (configure_ret reconfigure_ret : Int) : ExitResult :=
  let modified_options := get_modified_options opts
  let modified_options_count := modified_options.length
  if exit_action = .NOTHING then
    { returncode := 0, configure_runs := 0, reconfigure_runs := 0 }
  else if modified_options_count = 0 then
    { returncode := 0, configure_runs := 0, reconfigure_runs := 0 }
  else if exit_action = .ONLY_CONFIGURE then
    { returncode := configure_ret, configure_runs := 1, reconfigure_runs := 0 }
  else if configure_ret ≠ 0 then
    { returncode := configure_ret, configure_runs := 1, reconfigure_runs := 0 }
  else
    { returncode := reconfigure_ret, configure_runs := 1, reconfigure_runs := 1 }

/-- Runtime kind of a `MesonValue`, matched against a declared `MesonType`.
Modelled from the spec: `markModified` is specified to fail when the new
value's runtime kind does not match the option's `kind`; no such check
exists anywhere in options.py, so this predicate exists only to state that
claim. Combo options store `str` values. -/
def specKindMatches : MesonType → MesonValue → Bool
  | .STRING, .str _ => true
  | .BOOLEAN, .bool _ => true
  | .COMBO, .str _ => true
  | .INTEGER, .int _ => true
  | .ARRAY, .array _ => true
  | _, _ => false

/-! Helper lemmas about the embedded store operations. -/

theorem setOption_length (opts : List MesonOption) (i : Nat) (v : MesonValue) :
    (setOption opts i v).length = opts.length := by
  induction opts generalizing i with
  | nil => rfl
  | cons o rest ih =>
    cases i with
    | zero => rfl
    | succ n => simpa [setOption] using ih n

theorem setOption_get (opts : List MesonOption) (i : Nat) (v : MesonValue)
    (j : Nat) (hj : j < opts.length) (hj2 : j < (setOption opts i v).length) :
    (setOption opts i v).get ⟨j, hj2⟩ =
      if i = j then { opts.get ⟨j, hj⟩ with modified := true, value := v }
      else opts.get ⟨j, hj⟩ := by
  induction opts generalizing i j with
  | nil => simp at hj
  | cons o rest ih =>
    cases i with
    | zero =>
      cases j with
      | zero => simp [setOption]
      | succ m => simp [setOption]
    | succ n =>
      cases j with
      | zero => simp [setOption]
      | succ m =>
        have := ih n m (by simpa using hj) (by simpa [setOption] using hj2)
        simpa [setOption, Nat.succ_eq_add_one] using this

theorem setOption_getElem? (opts : List MesonOption) (i : Nat) (v : MesonValue) (j : Nat) :
    (setOption opts i v)[j]? =
      if i = j then (opts[j]?).map (fun o => { o with modified := true, value := v })
      else opts[j]? := by
  induction opts generalizing i j with
  | nil => simp [setOption]
  | cons o rest ih =>
    cases i with
    | zero =>
      cases j with
      | zero => simp [setOption]
      | succ m => simp [setOption]
    | succ n =>
      cases j with
      | zero => simp [setOption]
      | succ m => simpa [setOption, Nat.succ_eq_add_one] using ih n m

theorem pyIndex_some_lt (n : Nat) (i : Int) (k : Nat) (h : pyIndex n i = some k) :
    k < n := by
  unfold pyIndex at h
  split at h
  · rename_i hc
    obtain ⟨h1, h2⟩ := hc
    injection h with h
    omega
  · split at h
    · rename_i hc
      obtain ⟨h1, h2⟩ := hc
      injection h with h
      omega
    · exact absurd h (by simp)

theorem pyIndex_of_nonneg (n : Nat) (i : Int) (h1 : 0 ≤ i) (h2 : i < (n : Int)) :
    pyIndex n i = some i.toNat := by
  unfold pyIndex
  simp [h1, h2]

theorem set_modified_eq (opts : List MesonOption) (i : Int) (v : MesonValue)
    (opts2 : List MesonOption) (h : set_modified opts i v = some opts2) :
    ∃ k, pyIndex opts.length i = some k ∧ k < opts.length ∧ opts2 = setOption opts k v := by
  unfold set_modified at h
  cases hpy : pyIndex opts.length i with
  | none => rw [hpy] at h; simp at h
  | some k =>
    rw [hpy] at h
    simp only [Option.map_some'] at h
    injection h with h
    exact ⟨k, rfl, pyIndex_some_lt _ _ _ hpy, h.symm⟩

theorem runCommits_spec (commits : List (Int × MesonValue)) (opts final : List MesonOption)
    (h : runCommits opts commits = some final) :
    final.length = opts.length ∧
    ∀ j (hj : j < opts.length) (hj2 : j < final.length),
      (final.get ⟨j, hj2⟩).name = (opts.get ⟨j, hj⟩).name ∧
      ((final.get ⟨j, hj2⟩).modified = true ↔
        ((opts.get ⟨j, hj⟩).modified = true ∨
          ∃ p ∈ commits, pyIndex opts.length p.1 = some j)) := by
  induction commits generalizing opts with
  | nil =>
    unfold runCommits at h
    injection h with h
    subst h
    exact ⟨rfl, fun j hj hj2 => ⟨rfl, by simp⟩⟩
  | cons c rest ih =>
    obtain ⟨i, v⟩ := c
    unfold runCommits at h
    cases hset : set_modified opts i v with
    | none => rw [hset] at h; exact absurd h (by simp)
    | some opts2 =>
      rw [hset] at h
      obtain ⟨k, hpy, hk, hopts2⟩ := set_modified_eq opts i v opts2 hset
      subst hopts2
      have hlen2 : (setOption opts k v).length = opts.length := setOption_length opts k v
      obtain ⟨hlen, hspec⟩ := ih (setOption opts k v) h
      refine ⟨hlen.trans hlen2, fun j hj hj2 => ?_⟩
      have hj3 : j < (setOption opts k v).length := hlen2 ▸ hj
      obtain ⟨hname, hmod⟩ := hspec j hj3 hj2
      have hget := setOption_get opts k v j hj hj3
      constructor
      · rw [hname, hget]
        split <;> rfl
      · rw [hmod, hget]
        constructor
        · rintro (hbase | ⟨p, hp, hpj⟩)
          · split at hbase
            · rename_i hkj
              subst hkj
              exact Or.inr ⟨(i, v), by simp, by rw [hpy]⟩
            · exact Or.inl hbase
          · exact Or.inr ⟨p, by simp [hp], by rwa [hlen2] at hpj⟩
        · rintro (hbase | ⟨p, hp, hpj⟩)
          · split
            · simp
            · exact Or.inl hbase
          · simp only [List.mem_cons] at hp
            rcases hp with hp | hp
            · subst hp
              rw [hpy] at hpj
              injection hpj with hpj
              subst hpj
              simp
            · exact Or.inr ⟨p, hp, by rwa [hlen2]⟩

theorem runCommits_total (commits : List (Int × MesonValue)) (opts : List MesonOption)
    (hrange : ∀ p ∈ commits, 0 ≤ p.1 ∧ p.1 < (opts.length : Int)) :
    ∃ final, runCommits opts commits = some final := by
  induction commits generalizing opts with
  | nil => exact ⟨opts, rfl⟩
  | cons c rest ih =>
    obtain ⟨i, v⟩ := c
    obtain ⟨h1, h2⟩ := hrange (i, v) (by simp)
    have hpy : pyIndex opts.length i = some i.toNat := pyIndex_of_nonneg _ _ h1 h2
    have hset : set_modified opts i v = some (setOption opts i.toNat v) := by
      unfold set_modified
      rw [hpy]
      rfl
    obtain ⟨final, hfinal⟩ := ih (setOption opts i.toNat v) (by
      intro p hp
      have := hrange p (by simp [hp])
      rwa [setOption_length])
    exact ⟨final, by unfold runCommits; rw [hset]; exact hfinal⟩

/-! Concrete fixture options used by counterexamples and witnesses. -/

/-- A string option as loaded at session start (`modified = false`). -/
def demoString : MesonOption :=
  MesonOption.init "prefix" (.str "/usr") .STRING "Installation prefix" [] .DIRECTORY .HOST

/-- A boolean option as loaded at session start. -/
def demoBool : MesonOption :=
  MesonOption.init "debug" (.bool true) .BOOLEAN "Debug symbols" [] .CORE .HOST

/-- `demoBool` after a commit marked it modified. -/
def demoModified : MesonOption :=
  { demoBool with modified := true, value := .bool false }

/-! Claim theorems. -/

/-- C10: stringifying an empty array value yields the single character `]`
rather than `[]`, because `value_as_string` (options.py, line 91)
unconditionally drops the last character of the accumulated text — which
for an empty list is the opening bracket — before appending the closing
bracket. -/
theorem value_as_string_empty_array (name description : String) (choices : List String)
    (msection : MesonSection) (machine : MesonMachine) :
    (MesonOption.init name (.array []) .ARRAY description choices msection
        machine).value_as_string = some "]" := by
  rfl

/-- C6 counterexample: `get_option` does not fail on every index outside
`[0, len)` — Python list indexing accepts negative indices, so on a
two-element store index `-1` succeeds and returns the last option instead
of raising an out-of-range error. -/
theorem get_option_negative_index_succeeds :
    get_option [demoString, demoBool] (-1) = some demoBool := by
  decide

/-- C6 amended: `get_option opts index` returns the option at position
`index` when `0 ≤ index < len`; for `-len ≤ index < 0` it succeeds as well,
returning the option at position `len + index` (Python negative indexing);
it fails only when `index < -len` or `index ≥ len`. -/
theorem get_option_python_semantics (opts : List MesonOption) (i : Int) :
    (0 ≤ i → i < (opts.length : Int) →
      get_option opts i = opts[i.toNat]? ∧ (opts[i.toNat]?).isSome = true)
    ∧ (-(opts.length : Int) ≤ i → i < 0 →
      get_option opts i = opts[((opts.length : Int) + i).toNat]?
        ∧ (opts[((opts.length : Int) + i).toNat]?).isSome = true)
    ∧ ((i < -(opts.length : Int) ∨ (opts.length : Int) ≤ i) →
      get_option opts i = none) := by
  refine ⟨fun h1 h2 => ?_, fun h1 h2 => ?_, fun h => ?_⟩
  · have hk : i.toNat < opts.length := by omega
    constructor
    · unfold get_option pyIndex
      simp [h1, h2]
    · simp [List.getElem?_eq_getElem hk]
  · have hk : ((opts.length : Int) + i).toNat < opts.length := by omega
    constructor
    · unfold get_option pyIndex
      have hn1 : ¬(0 ≤ i ∧ i < (opts.length : Int)) := by omega
      have hn2 : -(opts.length : Int) ≤ i ∧ i < 0 := ⟨h1, h2⟩
      simp [hn1, hn2]
    · simp [List.getElem?_eq_getElem hk]
  · unfold get_option pyIndex
    have hn1 : ¬(0 ≤ i ∧ i < (opts.length : Int)) := by omega
    have hn2 : ¬(-(opts.length : Int) ≤ i ∧ i < 0) := by omega
    simp [hn1, hn2]

/-- Witness for the C6 amendment, on the two-option fixture store: index 1
succeeds, index -2 succeeds (selecting position 0), index 2 fails. -/
theorem get_option_python_semantics_witness :
    (get_option [demoString, demoBool] 1 = [demoString, demoBool][(1 : Int).toNat]?
      ∧ ([demoString, demoBool][(1 : Int).toNat]?).isSome = true)
    ∧ (get_option [demoString, demoBool] (-2)
          = [demoString, demoBool][(((List.length [demoString, demoBool] : Int)) + (-2)).toNat]?
      ∧ ([demoString, demoBool][(((List.length [demoString, demoBool] : Int)) + (-2)).toNat]?).isSome = true)
    ∧ get_option [demoString, demoBool] 2 = none :=
  ⟨(get_option_python_semantics [demoString, demoBool] 1).1 (by decide) (by decide),
   (get_option_python_semantics [demoString, demoBool] (-2)).2.1 (by decide) (by decide),
   (get_option_python_semantics [demoString, demoBool] 2).2.2 (Or.inr (by decide))⟩

/-- C7 counterexample: `set_modified` performs no kind check — committing
the integer `5` into the string-kinded option `prefix` succeeds, marks it
modified and stores the mismatched value, instead of failing as the claim
requires. -/
theorem set_modified_kind_mismatch_accepted :
    specKindMatches demoString.type (.int 5) = false
    ∧ set_modified [demoString] 0 (.int 5)
        = some [{ demoString with modified := true, value := .int 5 }] := by
  decide

/-- C7 amended: `set_modified opts index value` with an in-range index
always succeeds — it sets the option's `modified` flag, replaces its value
with `value` whatever its runtime kind (no `specKindMatches` check exists
in the code), and leaves every other option unchanged; the only failure
mode is an out-of-range index. -/
theorem set_modified_unconditional (opts : List MesonOption) (i : Nat)
    (v : MesonValue) (h : i < opts.length) :
    set_modified opts (i : Int) v = some (setOption opts i v)
    ∧ (setOption opts i v)[i]? =
        (opts[i]?).map (fun o => { o with modified := true, value := v })
    ∧ ∀ j, j ≠ i → (setOption opts i v)[j]? = opts[j]? := by
  refine ⟨?_, ?_, fun j hj => ?_⟩
  · unfold set_modified
    rw [pyIndex_of_nonneg _ _ (by omega) (by omega)]
    simp
  · simp [setOption_getElem?]
  · rw [setOption_getElem?, if_neg (fun hc => hj hc.symm)]

/-- Witness for the C7 amendment: committing `false` into position 0 of the
fixture store. -/
theorem set_modified_unconditional_witness :
    set_modified [demoString, demoBool] ((0 : Nat) : Int) (.bool false)
        = some (setOption [demoString, demoBool] 0 (.bool false))
    ∧ (setOption [demoString, demoBool] 0 (.bool false))[0]? =
        ([demoString, demoBool][0]?).map
          (fun o => { o with modified := true, value := .bool false })
    ∧ ∀ j, j ≠ 0 → (setOption [demoString, demoBool] 0 (.bool false))[j]?
        = [demoString, demoBool][j]? :=
  set_modified_unconditional [demoString, demoBool] 0 (.bool false) (by decide)

/-- C4: with exit decision apply-and-reload (`RECONFIGURE`) and a non-empty
modified subset, a failing configure step is the final status and the
reload step never runs; a successful configure step runs the reload step
exactly once and its status is the final status
(meson_interface.py, lines 143-182). -/
theorem run_exit_action_reconfigure_spec (opts : List MesonOption)
    (configure_ret reconfigure_ret : Int)
    (h : get_modified_options opts ≠ []) :
    (configure_ret ≠ 0 →
      run_exit_action .RECONFIGURE opts configure_ret reconfigure_ret =
        { returncode := configure_ret, configure_runs := 1, reconfigure_runs := 0 })
    ∧ (configure_ret = 0 →
      run_exit_action .RECONFIGURE opts configure_ret reconfigure_ret =
        { returncode := reconfigure_ret, configure_runs := 1, reconfigure_runs := 1 }) := by
  have hlen : (get_modified_options opts).length ≠ 0 := by
    simpa [List.length_eq_zero] using h
  constructor
  · intro hc
    unfold run_exit_action
    simp [hlen, hc]
  · intro hc
    unfold run_exit_action
    simp [hlen, hc]

/-- Witness for C4 on a store with one modified option: configure status 1
blocks the reload; configure status 0 propagates reload status 7. -/
theorem run_exit_action_reconfigure_witness :
    (run_exit_action .RECONFIGURE [demoString, demoModified] 1 7 =
      { returncode := 1, configure_runs := 1, reconfigure_runs := 0 })
    ∧ (run_exit_action .RECONFIGURE [demoString, demoModified] 0 7 =
      { returncode := 7, configure_runs := 1, reconfigure_runs := 1 }) :=
  ⟨(run_exit_action_reconfigure_spec [demoString, demoModified] 1 7 (by decide)).1 (by decide),
   (run_exit_action_reconfigure_spec [demoString, demoModified] 0 7 (by decide)).2 rfl⟩

/-- C5: activating a combo editor selects the cyclically next entry of its
fixed choices list — the new index is `(old + 1) % len`, the choices list
itself never changes, the displayed value is a member of the list, and for
a list with more than one entry the rotation emits a `changed` signal (for
a single-entry list `set_choice` receives the current index back and emits
nothing, the new value still being the cyclic successor). -/
theorem rotate_choice_next_cyclic (st : ComboEditState)
    (h : st.choice_index < st.choices.length) :
    (ComboEdit.rotate_choice st).1.choice_index
        = (st.choice_index + 1) % st.choices.length
    ∧ (ComboEdit.rotate_choice st).1.choices = st.choices
    ∧ ComboEdit.get_choice (ComboEdit.rotate_choice st).1 ∈ st.choices
    ∧ (1 < st.choices.length → (ComboEdit.rotate_choice st).2 = true) := by
  have hn : 0 < st.choices.length := by omega
  have hmain : (ComboEdit.rotate_choice st).1.choice_index
        = (st.choice_index + 1) % st.choices.length
      ∧ (ComboEdit.rotate_choice st).1.choices = st.choices
      ∧ (1 < st.choices.length → (ComboEdit.rotate_choice st).2 = true) := by
    unfold ComboEdit.rotate_choice ComboEdit.set_choice
    by_cases h1 : st.choice_index = st.choices.length - 1
    · by_cases h2 : st.choice_index = 0
      · have hn1 : st.choices.length = 1 := by omega
        rw [if_pos h1, if_pos h2]
        simp [h2, hn1]
      · have hmod : (st.choice_index + 1) % st.choices.length = 0 := by
          have hsum : st.choice_index + 1 = st.choices.length := by omega
          simp [hsum]
        rw [if_pos h1, if_neg h2]
        simp [hmod]
    · have hmod : (st.choice_index + 1) % st.choices.length = st.choice_index + 1 :=
        Nat.mod_eq_of_lt (by omega)
      rw [if_neg h1, if_neg (by omega : ¬st.choice_index = st.choice_index + 1)]
      simp [hmod]
  obtain ⟨hidx, hch, hemit⟩ := hmain
  refine ⟨hidx, hch, ?_, hemit⟩
  have hlt : (st.choice_index + 1) % st.choices.length < st.choices.length :=
    Nat.mod_lt _ hn
  unfold ComboEdit.get_choice
  rw [hidx, hch, List.getD_eq_getElem?_getD, List.getElem?_eq_getElem hlt]
  exact List.getElem_mem hlt

/-- Witness for C5, the spec's own scenario: choices `["a","b","c"]` at
`"c"` (index 2); activation wraps to index 0, committing `"a"`. -/
theorem rotate_choice_next_cyclic_witness :
    ComboEdit.init "c" ["a", "b", "c"] = some ⟨2, ["a", "b", "c"]⟩
    ∧ ComboEdit.get_choice (ComboEdit.rotate_choice ⟨2, ["a", "b", "c"]⟩).1 = "a"
    ∧ ((ComboEdit.rotate_choice (⟨2, ["a", "b", "c"]⟩ : ComboEditState)).1.choice_index
          = (2 + 1) % (["a", "b", "c"] : List String).length
      ∧ (ComboEdit.rotate_choice (⟨2, ["a", "b", "c"]⟩ : ComboEditState)).1.choices
          = ["a", "b", "c"]
      ∧ ComboEdit.get_choice (ComboEdit.rotate_choice (⟨2, ["a", "b", "c"]⟩ : ComboEditState)).1
          ∈ (["a", "b", "c"] : List String)
      ∧ (1 < (["a", "b", "c"] : List String).length →
          (ComboEdit.rotate_choice (⟨2, ["a", "b", "c"]⟩ : ComboEditState)).2 = true)) :=
  ⟨by decide, by decide, rotate_choice_next_cyclic ⟨2, ["a", "b", "c"]⟩ (by decide)⟩

/-- C9: the modified flag is monotone within a session — an option is
created with `modified = false`; a single `set_modified` call never clears
an already-set flag; no sequence of commits ever clears one; and `set_options`
(the only other operation touching the store) merely permutes the loaded
options, writing nothing. -/
theorem modified_flag_monotone :
    (∀ name value value_type description choices msection machine,
      (MesonOption.init name value value_type description choices msection
          machine).modified = false)
    ∧ (∀ opts (i : Int) v final, set_modified opts i v = some final →
        ∀ j (hj : j < opts.length) (hj2 : j < final.length),
          (opts.get ⟨j, hj⟩).modified = true → (final.get ⟨j, hj2⟩).modified = true)
    ∧ (∀ opts commits final, runCommits opts commits = some final →
        ∀ j (hj : j < opts.length) (hj2 : j < final.length),
          (opts.get ⟨j, hj⟩).modified = true → (final.get ⟨j, hj2⟩).modified = true)
    ∧ (∀ opts, ∀ o ∈ set_options opts, o ∈ opts) := by
  refine ⟨fun _ _ _ _ _ _ _ => rfl, ?_, ?_, ?_⟩
  · intro opts i v final hset j hj hj2 hmod
    obtain ⟨k, _, hk, hfinal⟩ := set_modified_eq opts i v final hset
    subst hfinal
    rw [setOption_get opts k v j hj hj2]
    split
    · rfl
    · exact hmod
  · intro opts commits final hrun j hj hj2 hmod
    exact ((runCommits_spec commits opts final hrun).2 j hj hj2).2.mpr (Or.inl hmod)
  · intro opts o ho
    exact (List.mergeSort_perm opts optionLe).mem_iff.mp ho

/-- Witness for C9: a flag set by an earlier commit survives a later commit
that restores the original value. -/
theorem modified_flag_monotone_witness :
    (MesonOption.init "debug" (.bool true) .BOOLEAN "Debug symbols" [] .CORE
        .HOST).modified = false
    ∧ (([demoModified].get ⟨0, by decide⟩).modified = true →
        ((setOption [demoModified] 0 (.bool true)).get ⟨0, by decide⟩).modified = true) :=
  ⟨(modified_flag_monotone).1 "debug" (.bool true) .BOOLEAN "Debug symbols" [] .CORE .HOST,
   (modified_flag_monotone).2.1 [demoModified] 0 (.bool true)
      (setOption [demoModified] 0 (.bool true)) (by decide) 0 (by decide) (by decide)⟩

/-- C3 counterexample: commit `/usr/local` and then commit back the
load-time value `/usr`; the committed value now equals the load-time value,
yet `get_modified_options` still returns the option — it filters on the
sticky `modified` flag, not on value difference. -/
theorem get_modified_options_recommit :
    runCommits [demoString] [((0 : Int), .str "/usr/local"), ((0 : Int), .str "/usr")]
        = some [{ demoString with modified := true, value := .str "/usr" }]
    ∧ ({ demoString with modified := true, value := .str "/usr" } : MesonOption).value
        = demoString.value
    ∧ get_modified_options [{ demoString with modified := true, value := .str "/usr" }]
        = [{ demoString with modified := true, value := .str "/usr" }] := by
  decide

/-- C3 amended: after any sequence of in-range commits on a freshly loaded
store, `get_modified_options` returns — as an order-preserving sublist of
the store — exactly the options whose position was ever the target of a
commit, whether or not their committed value still differs from the
load-time value. -/
theorem get_modified_options_flagged (opts : List MesonOption)
    (commits : List (Int × MesonValue))
    (hfresh : ∀ o ∈ opts, o.modified = false)
    (hrange : ∀ p ∈ commits, 0 ≤ p.1 ∧ p.1 < (opts.length : Int)) :
    ∃ final, runCommits opts commits = some final
      ∧ final.length = opts.length
      ∧ List.Sublist (get_modified_options final) final
      ∧ ∀ j (hj : j < opts.length) (hj2 : j < final.length),
          (final.get ⟨j, hj2⟩).name = (opts.get ⟨j, hj⟩).name
          ∧ ((final.get ⟨j, hj2⟩ ∈ get_modified_options final) ↔
              (j : Int) ∈ commits.map Prod.fst) := by
  obtain ⟨final, hrun⟩ := runCommits_total commits opts hrange
  obtain ⟨hlen, hspec⟩ := runCommits_spec commits opts final hrun
  refine ⟨final, hrun, hlen, List.filter_sublist _, fun j hj hj2 => ?_⟩
  obtain ⟨hname, hmod⟩ := hspec j hj hj2
  refine ⟨hname, ?_⟩
  unfold get_modified_options
  rw [List.mem_filter]
  constructor
  · rintro ⟨-, hflag⟩
    have := hmod.mp (by simpa using hflag)
    rcases this with hbase | ⟨p, hp, hpj⟩
    · have hf := hfresh (opts.get ⟨j, hj⟩) (List.get_mem opts j hj)
      rw [hf] at hbase
      exact Bool.noConfusion hbase
    · obtain ⟨h0, hlt⟩ := hrange p hp
      rw [pyIndex_of_nonneg _ _ h0 hlt] at hpj
      injection hpj with hpj
      have : p.1 = (j : Int) := by omega
      exact List.mem_map.mpr ⟨p, hp, this⟩
  · intro hjmem
    obtain ⟨p, hp, hpj⟩ := List.mem_map.mp hjmem
    refine ⟨List.get_mem final j hj2, ?_⟩
    have hflag : (final.get ⟨j, hj2⟩).modified = true := by
      apply hmod.mpr
      refine Or.inr ⟨p, hp, ?_⟩
      obtain ⟨h0, hlt⟩ := hrange p hp
      rw [pyIndex_of_nonneg _ _ h0 hlt, hpj]
      simp
    simpa using hflag

/-- Witness for the C3 amendment: the two-commit scenario of the
counterexample, run through the amended statement. -/
theorem get_modified_options_flagged_witness :
    ∃ final, runCommits [demoString]
          [((0 : Int), .str "/usr/local"), ((0 : Int), .str "/usr")] = some final
      ∧ final.length = [demoString].length
      ∧ List.Sublist (get_modified_options final) final
      ∧ ∀ j (hj : j < [demoString].length) (hj2 : j < final.length),
          (final.get ⟨j, hj2⟩).name = ([demoString].get ⟨j, hj⟩).name
          ∧ ((final.get ⟨j, hj2⟩ ∈ get_modified_options final) ↔
              (j : Int) ∈ ([((0 : Int), MesonValue.str "/usr/local"),
                ((0 : Int), MesonValue.str "/usr")].map Prod.fst)) :=
  get_modified_options_flagged [demoString]
    [((0 : Int), .str "/usr/local"), ((0 : Int), .str "/usr")]
    (by decide) (by decide)

/-- C1 counterexample: committing an unchanged value is NOT a no-op for the
string editor. With the buffer still holding the option's current value
`/usr`, pressing `enter` on the activated editor deactivates it and emits a
`changed` signal unconditionally (tui.py, lines 106-111); the callback then
sets the option's modified flag (tui.py, line 423). -/
theorem string_commit_same_value_not_noop :
    StringEdit.get_value (⟨true, "/usr", 4⟩ : StringEditState) = "/usr"
    ∧ demoString.value = .str "/usr"
    ∧ (StringEdit.keypress (fun t _ => t) ⟨true, "/usr", 4⟩ "enter").emitted = true
    ∧ (entry_modified_callback ⟨false, "prefix"⟩ [demoString] 0 (.str "/usr")).2
        = some [{ demoString with modified := true, value := .str "/usr" }]
    ∧ ({ demoString with modified := true, value := .str "/usr" } : MesonOption).modified
        = true := by
  decide

/-- C1 amended: commit/notification behavior is per-kind. Boolean and
enumerated-choice editors guard on equality — committing the current value
emits nothing and changes nothing, and a value-changing commit emits
exactly once. String and integer (and hence string-list, which reuses the
string editor) editors emit exactly one `changed` signal on every
deactivating `enter`, whether or not the value differs from the previous
one, so a same-value commit still reaches `set_modified`. -/
theorem commit_notification_per_kind :
    (∀ st : BooleanEditState, BooleanEdit.set_state st st.state = (st, false))
    ∧ (∀ (st : BooleanEditState) (b : Bool),
        b ≠ st.state → (BooleanEdit.set_state st b).2 = true)
    ∧ (∀ st : ComboEditState, ComboEdit.set_choice st st.choice_index = (st, false))
    ∧ (∀ (st : ComboEditState) (j : Nat),
        j ≠ st.choice_index → (ComboEdit.set_choice st j).2 = true)
    ∧ (∀ (ed : String → String → String) (st : StringEditState),
        st.activated = true → (StringEdit.keypress ed st "enter").emitted = true)
    ∧ (∀ (ed : String → String → String) (st : IntegerEditState),
        st.activated = true → (IntegerEdit.keypress ed st "enter").emitted = true) := by
  refine ⟨?_, ?_, ?_, ?_, ?_, ?_⟩
  · intro st
    simp [BooleanEdit.set_state]
  · intro st b hb
    rw [BooleanEdit.set_state, if_neg (fun hc => hb hc.symm)]
  · intro st
    simp [ComboEdit.set_choice]
  · intro st j hj
    rw [ComboEdit.set_choice, if_neg (fun hc => hj hc.symm)]
  · intro ed st hact
    simp [StringEdit.keypress, hact]
  · intro ed st hact
    simp [IntegerEdit.keypress, hact]

/-- Witness for the C1 amendment: a boolean no-op commit, a boolean
changing commit, a combo no-op commit, a combo changing commit, and
deactivations of activated string and integer editors. -/
theorem commit_notification_per_kind_witness :
    BooleanEdit.set_state ⟨true⟩ true = (⟨true⟩, false)
    ∧ (BooleanEdit.set_state ⟨true⟩ false).2 = true
    ∧ ComboEdit.set_choice ⟨2, ["a", "b", "c"]⟩ 2 = (⟨2, ["a", "b", "c"]⟩, false)
    ∧ (ComboEdit.set_choice ⟨2, ["a", "b", "c"]⟩ 0).2 = true
    ∧ (StringEdit.keypress (fun t _ => t) ⟨true, "/usr", 4⟩ "enter").emitted = true
    ∧ (IntegerEdit.keypress (fun t _ => t) ⟨true, "3"⟩ "enter").emitted = true :=
  ⟨commit_notification_per_kind.1 ⟨true⟩,
   commit_notification_per_kind.2.1 ⟨true⟩ false (by decide),
   commit_notification_per_kind.2.2.1 ⟨2, ["a", "b", "c"]⟩,
   commit_notification_per_kind.2.2.2.1 ⟨2, ["a", "b", "c"]⟩ 0 (by decide),
   commit_notification_per_kind.2.2.2.2.1 (fun t _ => t) ⟨true, "/usr", 4⟩ rfl,
   commit_notification_per_kind.2.2.2.2.2 (fun t _ => t) ⟨true, "3"⟩ rfl⟩

/-- The empty string is the least string in code-point order. -/
theorem empty_string_le (s : String) : "" ≤ s := by
  rw [String.le_iff_toList_le]
  simp

/-- C2: after `set_options`, the store is sorted ascending by the
three-level lexicographic key `(subproject-or-empty, section priority,
bare name)`: every pair in store order (in particular every adjacent pair)
satisfies `key(a) ≤ key(b)`; consequently an option whose key has a
subproject component never precedes one whose key component is empty — the
prefix-free options come first; and the result is a permutation of the
input (sorting only reorders). -/
theorem set_options_sorted (options : List MesonOption) :
    (set_options options).Pairwise (fun a b => sortKeyLex a ≤ sortKeyLex b)
    ∧ (set_options options).Pairwise (fun a b => (sorter b).1 = "" → (sorter a).1 = "")
    ∧ (set_options options).Perm options := by
  have htrans : ∀ a b c : MesonOption, optionLe a b → optionLe b c → optionLe a c := by
    intro a b c hab hbc
    simp only [optionLe, decide_eq_true_eq] at *
    exact le_trans hab hbc
  have htotal : ∀ a b : MesonOption, optionLe a b || optionLe b a := by
    intro a b
    simp only [optionLe]
    rcases le_total (sortKeyLex a) (sortKeyLex b) with h | h
    · simp [h]
    · simp [h]
  have hsorted : (set_options options).Pairwise (fun a b => sortKeyLex a ≤ sortKeyLex b) := by
    have := List.sorted_mergeSort htrans htotal options
    exact this.imp (fun h => by simpa [optionLe, decide_eq_true_eq] using h)
  refine ⟨hsorted, ?_, List.mergeSort_perm options optionLe⟩
  refine hsorted.imp (fun {a b} h hb => ?_)
  rw [sortKeyLex, sortKeyLex, Prod.Lex.le_iff] at h
  rcases h with h1 | ⟨h1, -⟩
  · rw [hb] at h1
    exact absurd h1 (not_lt.mpr (empty_string_le _))
  · rw [h1, hb]

/-- The character class for which Python's `repr` of a string is just the
text wrapped in single quotes (so `str(list)` stays inside the literal
grammar `literal_eval` inverts): printable ASCII with neither a single
quote nor a backslash. These are the strings "with no embedded characters
that break the literal syntax". -/
def goodChar (c : Char) : Bool :=
  c != quoteChar && c != backslashChar && decide (32 ≤ c.toNat) && decide (c.toNat ≤ 126)

theorem mk_data_eq (s : String) : String.mk s.data = s := rfl

theorem scanQuoted_append (body rest : List Char) (h : ∀ c ∈ body, c ≠ quoteChar) :
    scanQuoted (body ++ quoteChar :: rest) = some (body, rest) := by
  induction body with
  | nil => simp [scanQuoted]
  | cons c cs ih =>
    have hc : c ≠ quoteChar := h c (by simp)
    simp [scanQuoted, hc, ih (fun x hx => h x (by simp [hx]))]

theorem length_le_encodeElems (L : List String) : L.length ≤ (encodeElems L).length := by
  induction L with
  | nil => simp [encodeElems]
  | cons s rest ih =>
    cases rest with
    | nil => simp [encodeElems, encodeElem]
    | cons s2 r2 =>
      have hstep : encodeElems (s :: s2 :: r2)
          = encodeElem s ++ ',' :: ' ' :: encodeElems (s2 :: r2) := rfl
      rw [hstep]
      simp only [List.length_cons, List.length_append, encodeElem] at *
      omega

theorem parseElems_encodeElems (L : List String) (fuel : Nat) (hne : L ≠ [])
    (hq : ∀ s ∈ L, ∀ c ∈ s.data, c ≠ quoteChar) (hfuel : L.length ≤ fuel) :
    parseElems fuel (encodeElems L ++ [']']) = some L := by
  induction L generalizing fuel with
  | nil => exact absurd rfl hne
  | cons s rest ih =>
    obtain ⟨f, rfl⟩ : ∃ f, fuel = f + 1 :=
      ⟨fuel - 1, by simp at hfuel; omega⟩
    cases rest with
    | nil =>
      have heq : encodeElems [s] ++ [']'] = quoteChar :: (s.data ++ (quoteChar :: [']'])) := by
        simp [encodeElems, encodeElem]
      rw [heq]
      have hscan := scanQuoted_append s.data [']'] (hq s (by simp))
      simp [parseElems, hscan, mk_data_eq]
    | cons s2 r2 =>
      have heq : encodeElems (s :: s2 :: r2) ++ [']']
          = quoteChar ::
              (s.data ++ (quoteChar :: (',' :: ' ' :: (encodeElems (s2 :: r2) ++ [']'])))) := by
        simp [encodeElems, encodeElem]
      rw [heq]
      have hscan := scanQuoted_append s.data
        (',' :: ' ' :: (encodeElems (s2 :: r2) ++ [']'])) (hq s (by simp))
      have hih : parseElems f (encodeElems (s2 :: r2) ++ [']']) = some (s2 :: r2) := by
        refine ih f (by simp) (fun x hx c hc => hq x (List.mem_cons_of_mem s hx) c hc) ?_
        simp at hfuel ⊢
        omega
      simp [parseElems, hscan, hih, mk_data_eq]

/-- C8: round trip for the string-list editor. For every list of strings
whose characters keep Python's string `repr` literal (printable ASCII, no
single quote, no backslash), formatting the list into the editor's buffer
(`str(value)` in `ArrayEdit.__init__`) and parsing the buffer back
(`literal_eval` in `ArrayEdit.get_value`) yields the original list. -/
theorem array_buffer_roundtrip (L : List String)
    (h : ∀ s ∈ L, ∀ c ∈ s.data, goodChar c = true) :
    ArrayEdit.get_value (ArrayEdit.init L) = some L := by
  have hq : ∀ s ∈ L, ∀ c ∈ s.data, c ≠ quoteChar := by
    intro s hs c hc
    have hg := h s hs c hc
    simp [goodChar] at hg
    exact hg.1.1.1
  show parseStringList (pyStrList L) = some L
  unfold parseStringList pyStrList
  cases L with
  | nil => simp [encodeElems]
  | cons s rest =>
    have hlen : 2 ≤ (encodeElems (s :: rest)).length := by
      have := length_le_encodeElems (s :: rest)
      cases rest with
      | nil => simp [encodeElems, encodeElem]
      | cons s2 r2 =>
        have hstep : encodeElems (s :: s2 :: r2)
            = encodeElem s ++ ',' :: ' ' :: encodeElems (s2 :: r2) := rfl
        rw [hstep]
        simp [encodeElem]
        omega
    have hne : ¬(encodeElems (s :: rest) ++ [']'] = [']']) := by
      intro hcontra
      have hlen2 := congrArg List.length hcontra
      rw [List.length_append] at hlen2
      simp only [List.length_cons, List.length_nil] at hlen2
      omega
    simp only [mk_data_eq, if_true]
    rw [if_neg hne]
    refine parseElems_encodeElems (s :: rest) _ (by simp) hq ?_
    have h1 := length_le_encodeElems (s :: rest)
    simp at h1 ⊢
    omega

/-- Witness for C8: the two-element list `["a", "b c"]` — buffer text
`['a', 'b c']` — parses back to itself. -/
theorem array_buffer_roundtrip_witness :
    ArrayEdit.get_value (ArrayEdit.init ["a", "b c"]) = some ["a", "b c"] :=
  array_buffer_roundtrip ["a", "b c"] (by decide)

end Mmeson
